import Mathlib

/-!
Verification development for the Pomodoro timer core
(`src/main/python/worker.py` and `src/main/python/progressbar.py`).

The Worker loop is embedded over an abstract wall clock: `clock n` is the
value returned by the n-th call to `time.time()` made by `timeCounter`
(read 0 is `start_time`; iteration `i` reads the loop condition at index
`2*i+1` and the post-sleep emission time at index `2*i+2`).  The
cancellation flag, written concurrently by `stop`, is embedded as the
observation function `is_running i`: the value the loop condition of
iteration `i` reads.  `time.sleep(0.5)` becomes the hypothesis that the
clock advances by at least 1/2 between the condition read and the
emission read of one iteration.  The Python loop has no fuel; the Lean
embedding takes a fuel argument and returns the truncated trace `[]` on
exhaustion, and the theorems show that any fuel above `2*limit*60` is
never exhausted.
-/

/-- State of `worker.Worker`: the configured limit (minutes) and the
cooperative cancellation flag. -/
structure Worker where
  time_limit : ℚ
  is_running : Bool
deriving DecidableEq, Repr

/-- `Worker.__init__`: stores the limit and sets `is_running = True`. -/
def Worker.init (time_limit : ℚ) : Worker :=
  { time_limit := time_limit, is_running := true }

/-- `Worker.stop`: sets `is_running = False`. -/
def Worker.stop (w : Worker) : Worker :=
  { w with is_running := false }

/-- The two PyQt signals `Worker` can emit: `timeProgress(float)` and
`finished()`. -/
inductive WorkerEvent where
  | timeProgress (elapsed : ℚ)
  | finished
deriving DecidableEq, Repr

/-- Whether an event is a progress event. -/
def WorkerEvent.isProgress : WorkerEvent → Bool
  | timeProgress _ => true
  | finished => false

/-- `Worker.timeCounter`, one loop iteration at a time.  `i` is the
iteration index; the loop condition of iteration `i` compares
`clock (2*i+1) - clock 0` (elapsed seconds) against `time_limit * 60` and
reads the cancellation flag as `is_running i`; if it holds, the loop
sleeps and emits `timeProgress ((clock (2*i+2) - clock 0) / 60)`.  When
the condition fails the loop exits and `finished` is emitted.  Fuel
exhaustion returns the truncated trace `[]`. -/
def timeCounterAux (time_limit : ℚ) (clock : ℕ → ℚ) (is_running : ℕ → Bool) :
    ℕ → ℕ → List WorkerEvent
  | 0, _ => []
  | fuel + 1, i =>
    if clock (2*i+1) - clock 0 < time_limit * 60 ∧ is_running i then
      WorkerEvent.timeProgress ((clock (2*i+2) - clock 0) / 60)
        :: timeCounterAux time_limit clock is_running fuel (i+1)
    else
      [WorkerEvent.finished]

/-- The full trace of one run of `Worker.timeCounter`. -/
def timeCounter (time_limit : ℚ) (clock : ℕ → ℚ) (is_running : ℕ → Bool)
    (fuel : ℕ) : List WorkerEvent :=
  timeCounterAux time_limit clock is_running fuel 0

/-- Each completed iteration sleeps at least half a second, so the
condition-read clock of iteration `i` is at least `i/2` past the start. -/
theorem clock_lower_bound (clock : ℕ → ℚ) (Hmono : Monotone clock)
    (Hsleep : ∀ n, clock (2*n+1) + 1/2 ≤ clock (2*n+2)) :
    ∀ i : ℕ, (i : ℚ) / 2 ≤ clock (2*i+1) - clock 0 := by
  intro i
  induction i with
  | zero =>
    have h0 : clock 0 ≤ clock 1 := Hmono (by omega)
    simpa using by linarith
  | succ n ih =>
    have h1 : clock (2*n+2) ≤ clock (2*(n+1)+1) := Hmono (by omega)
    have h2 := Hsleep n
    push_cast
    push_cast at ih
    linarith

/-- Structure of a run: with enough fuel, the trace produced from
iteration `i` on is a block of progress events (one per iteration whose
condition held) followed by exactly one `finished`, and every iteration
in the block passed the loop condition. -/
theorem timeCounterAux_shape (L : ℚ) (clock : ℕ → ℚ) (r : ℕ → Bool)
    (Hmono : Monotone clock)
    (Hsleep : ∀ n, clock (2*n+1) + 1/2 ≤ clock (2*n+2)) :
    ∀ (fuel i : ℕ), 1 ≤ fuel → 2 * L * 60 ≤ (i : ℚ) + (fuel : ℚ) - 1 →
      ∃ k : ℕ,
        timeCounterAux L clock r fuel i =
          (List.range k).map
            (fun j => WorkerEvent.timeProgress ((clock (2*(i+j)+2) - clock 0) / 60))
            ++ [WorkerEvent.finished] ∧
        (∀ j, j < k → clock (2*(i+j)+1) - clock 0 < L * 60 ∧ r (i+j) = true) := by
  intro fuel
  induction fuel with
  | zero => intro i h1 _; omega
  | succ n ih =>
    intro i _ Hi
    by_cases hc : clock (2*i+1) - clock 0 < L * 60 ∧ r i = true
    · have hlb := clock_lower_bound clock Hmono Hsleep i
      have hi2 : (i : ℚ) < 2 * L * 60 := by linarith [hc.1]
      have hn : 1 ≤ n := by
        by_contra hcon
        push_neg at hcon
        have hn0 : n = 0 := by omega
        subst hn0
        push_cast at Hi
        linarith
      obtain ⟨k, hk, hcond⟩ := ih (i+1) hn (by push_cast at Hi ⊢; linarith)
      refine ⟨k+1, ?_, ?_⟩
      · have step : timeCounterAux L clock r (n+1) i =
            WorkerEvent.timeProgress ((clock (2*i+2) - clock 0) / 60)
              :: timeCounterAux L clock r n (i+1) := by
          simp only [timeCounterAux]
          rw [if_pos hc]
        have hmapeq : (List.range k).map
              (fun j => WorkerEvent.timeProgress ((clock (2*(i+1+j)+2) - clock 0) / 60)) =
            (List.range k).map
              (fun j => WorkerEvent.timeProgress ((clock (2*(i+(j+1))+2) - clock 0) / 60)) := by
          apply List.map_congr_left
          intro j _
          have harg : i + 1 + j = i + (j + 1) := by omega
          rw [harg]
        rw [step, hk, hmapeq, List.range_succ_eq_map, List.map_cons, List.map_map,
          List.cons_append]
        congr 1
      · intro j hj
        match j with
        | 0 => simpa using hc
        | j' + 1 =>
          have := hcond j' (by omega)
          have harg : i + 1 + j' = i + (j' + 1) := by omega
          rw [harg] at this
          exact this
    · refine ⟨0, ?_, by intro j hj; omega⟩
      simp only [timeCounterAux]
      rw [if_neg hc]
      simp

/-- Once the cancellation flag reads false, it stays false (it is written
only by `stop`), so from that point on no iteration passes the loop
condition: the number of progress events emitted from iteration `i` on is
at most `c - i` when the flag is false at check `c`. -/
theorem timeCounterAux_countP (L : ℚ) (clock : ℕ → ℚ) (r : ℕ → Bool)
    (c : ℕ)
    (Hpersist : ∀ m n : ℕ, m ≤ n → r m = false → r n = false)
    (Hc : r c = false) :
    ∀ (fuel i : ℕ),
      (timeCounterAux L clock r fuel i).countP WorkerEvent.isProgress ≤ c - i := by
  intro fuel
  induction fuel with
  | zero => intro i; simp [timeCounterAux]
  | succ n ih =>
    intro i
    by_cases hcnd : clock (2*i+1) - clock 0 < L * 60 ∧ r i = true
    · have hic : i < c := by
        by_contra hge
        push_neg at hge
        have hfalse := Hpersist c i hge Hc
        rw [hcnd.2] at hfalse
        simp at hfalse
      have step : timeCounterAux L clock r (n+1) i =
          WorkerEvent.timeProgress ((clock (2*i+2) - clock 0) / 60)
            :: timeCounterAux L clock r n (i+1) := by
        simp only [timeCounterAux]
        rw [if_pos hcnd]
      rw [step, List.countP_cons]
      have hrec := ih (i+1)
      simp only [WorkerEvent.isProgress, if_pos]
      omega
    · have step : timeCounterAux L clock r (n+1) i = [WorkerEvent.finished] := by
        simp only [timeCounterAux]
        rw [if_neg hcnd]
      rw [step]
      simp [List.countP_cons, WorkerEvent.isProgress]

/-- A perfectly regular clock: each read advances half a second. -/
def wClock : ℕ → ℚ := fun n => n / 2

theorem wClock_mono : Monotone wClock := by
  apply monotone_nat_of_le_succ
  intro n
  simp only [wClock]
  push_cast
  linarith

theorem wClock_sleep : ∀ n, wClock (2*n+1) + 1/2 ≤ wClock (2*n+2) := by
  intro n
  simp only [wClock]
  push_cast
  linarith

/-- C3: whenever the `timeCounter` loop exits — naturally at the limit or
via cancellation (any flag behaviour `r`) — the emitted trace is a block
of progress events followed by the completion signal, and `finished`
occurs exactly once, carrying no indication of the reason. -/
theorem C3_finished_exactly_once (L : ℚ) (clock : ℕ → ℚ) (r : ℕ → Bool)
    (Hmono : Monotone clock)
    (Hsleep : ∀ n, clock (2*n+1) + 1/2 ≤ clock (2*n+2))
    (fuel : ℕ) (Hf1 : 1 ≤ fuel) (Hfuel : 2 * L * 60 ≤ (fuel : ℚ) - 1) :
    ∃ vs : List ℚ,
      timeCounter L clock r fuel =
        vs.map WorkerEvent.timeProgress ++ [WorkerEvent.finished] ∧
      (timeCounter L clock r fuel).count WorkerEvent.finished = 1 := by
  obtain ⟨k, hk, -⟩ :=
    timeCounterAux_shape L clock r Hmono Hsleep fuel 0 Hf1 (by push_cast; linarith)
  refine ⟨(List.range k).map (fun j => (clock (2*(0+j)+2) - clock 0) / 60), ?_, ?_⟩
  · rw [timeCounter, hk, List.map_map]
    rfl
  · rw [timeCounter, hk, List.count_append]
    have h0 : ((List.range k).map
        (fun j => WorkerEvent.timeProgress ((clock (2*(0+j)+2) - clock 0) / 60))).count
          WorkerEvent.finished = 0 := by
      rw [List.count_eq_zero]
      intro hmem
      obtain ⟨j, -, habs⟩ := List.mem_map.mp hmem
      exact WorkerEvent.noConfusion habs
    rw [h0]
    simp [List.count_singleton]

/-- C3 witness: limit 1/60 minute (one second), the regular clock, an
uncancelled run, fuel 3. -/
theorem C3_finished_exactly_once_witness :
    Monotone wClock ∧ (∀ n, wClock (2*n+1) + 1/2 ≤ wClock (2*n+2)) ∧
    (1 ≤ 3) ∧ (2 * (1/60 : ℚ) * 60 ≤ (3 : ℚ) - 1) ∧
    ∃ vs : List ℚ,
      timeCounter (1/60) wClock (fun _ => true) 3 =
        vs.map WorkerEvent.timeProgress ++ [WorkerEvent.finished] ∧
      (timeCounter (1/60) wClock (fun _ => true) 3).count WorkerEvent.finished = 1 :=
  ⟨wClock_mono, wClock_sleep, by norm_num, by norm_num,
    C3_finished_exactly_once (1/60) wClock (fun _ => true) wClock_mono wClock_sleep 3
      (by norm_num) (by norm_num)⟩

/-- C1 (amended): for a positive limit, a run with the flag never
cancelled is a strictly increasing block of progress values followed by
exactly one completion event; every progress value except possibly the
last is strictly below the limit (the final one may overshoot the limit
by the amount of its sleep, see the counterexample). -/
theorem C1_natural_run (L : ℚ) (clock : ℕ → ℚ)
    (Hpos : 0 < L) (Hmono : Monotone clock)
    (Hsleep : ∀ n, clock (2*n+1) + 1/2 ≤ clock (2*n+2))
    (fuel : ℕ) (Hf1 : 1 ≤ fuel) (Hfuel : 2 * L * 60 ≤ (fuel : ℚ) - 1) :
    ∃ k : ℕ,
      timeCounter L clock (fun _ => true) fuel =
        (List.range k).map
          (fun j => WorkerEvent.timeProgress ((clock (2*j+2) - clock 0) / 60))
          ++ [WorkerEvent.finished] ∧
      (∀ j1 j2, j1 < j2 → j2 < k →
        (clock (2*j1+2) - clock 0) / 60 < (clock (2*j2+2) - clock 0) / 60) ∧
      (∀ j, j + 1 < k → (clock (2*j+2) - clock 0) / 60 < L) := by
  obtain ⟨k, hk, hcond⟩ :=
    timeCounterAux_shape L clock (fun _ => true) Hmono Hsleep fuel 0 Hf1
      (by push_cast; linarith)
  have hfeq : (fun j => WorkerEvent.timeProgress ((clock (2*(0+j)+2) - clock 0) / 60)) =
      (fun j : ℕ => WorkerEvent.timeProgress ((clock (2*j+2) - clock 0) / 60)) := by
    funext j
    rw [Nat.zero_add]
  refine ⟨k, ?_, ?_, ?_⟩
  · rw [timeCounter, hk, hfeq]
  · intro j1 j2 h12 h2k
    have ha : clock (2*j1+2) ≤ clock (2*j2+1) := Hmono (by omega)
    have hb := Hsleep j2
    linarith
  · intro j hj
    have h1 := (hcond (j+1) hj).1
    have ha : clock (2*j+2) ≤ clock (2*(0+(j+1))+1) := Hmono (by omega)
    linarith

/-- C1 witness: limit 1/60 minute, the regular clock, fuel 3. -/
theorem C1_natural_run_witness :
    (0 < (1/60 : ℚ)) ∧ Monotone wClock ∧
    (∀ n, wClock (2*n+1) + 1/2 ≤ wClock (2*n+2)) ∧
    (1 ≤ 3) ∧ (2 * (1/60 : ℚ) * 60 ≤ (3 : ℚ) - 1) ∧
    ∃ k : ℕ,
      timeCounter (1/60) wClock (fun _ => true) 3 =
        (List.range k).map
          (fun j => WorkerEvent.timeProgress ((wClock (2*j+2) - wClock 0) / 60))
          ++ [WorkerEvent.finished] ∧
      (∀ j1 j2, j1 < j2 → j2 < k →
        (wClock (2*j1+2) - wClock 0) / 60 < (wClock (2*j2+2) - wClock 0) / 60) ∧
      (∀ j, j + 1 < k → (wClock (2*j+2) - wClock 0) / 60 < 1/60) :=
  ⟨by norm_num, wClock_mono, wClock_sleep, by norm_num, by norm_num,
    C1_natural_run (1/60) wClock (by norm_num) wClock_mono wClock_sleep 3
      (by norm_num) (by norm_num)⟩

/-- A legitimate clock behaviour (monotone, every sleep at least half a
second) whose final sleep overshoots: the reading taken after the last
sleep is past the limit of 60 seconds. -/
def cexClock : ℕ → ℚ
  | 0 => 0
  | 1 => 59
  | 2 => 302/5
  | n + 3 => 63 + n

theorem cexClock_mono : Monotone cexClock := by
  apply monotone_nat_of_le_succ
  intro n
  match n with
  | 0 => norm_num [cexClock]
  | 1 => norm_num [cexClock]
  | 2 => norm_num [cexClock]
  | m + 3 =>
    have h4 : m + 3 + 1 = (m + 1) + 3 := by omega
    rw [h4]
    simp only [cexClock]
    push_cast
    linarith

theorem cexClock_sleep : ∀ n, cexClock (2*n+1) + 1/2 ≤ cexClock (2*n+2) := by
  intro n
  match n with
  | 0 => norm_num [cexClock]
  | m + 1 =>
    have h1 : 2*(m+1)+1 = (2*m) + 3 := by omega
    have h2 : 2*(m+1)+2 = (2*m+1) + 3 := by omega
    rw [h1, h2]
    simp only [cexClock]
    push_cast
    linarith

/-- C1 counterexample: with limit 1 minute and a clock satisfying the run
hypotheses (monotone, every sleep at least half a second), the loop
condition passes at 59s, the sleep overshoots to 60.4s, and the emitted
progress value 151/150 exceeds the limit 1: the claim that every emitted
elapsed value is at most the limit is false. -/
theorem C1_counterexample :
    Monotone cexClock ∧
    (∀ n, cexClock (2*n+1) + 1/2 ≤ cexClock (2*n+2)) ∧
    timeCounter 1 cexClock (fun _ => true) 3 =
      [WorkerEvent.timeProgress (151/150), WorkerEvent.finished] ∧
    ¬ (∀ q : ℚ, WorkerEvent.timeProgress q ∈ timeCounter 1 cexClock (fun _ => true) 3 →
        q ≤ 1) := by
  have htrace : timeCounter 1 cexClock (fun _ => true) 3 =
      [WorkerEvent.timeProgress (151/150), WorkerEvent.finished] := by
    simp only [timeCounter, timeCounterAux]
    norm_num [cexClock]
  refine ⟨cexClock_mono, cexClock_sleep, htrace, ?_⟩
  intro h
  have h2 := h (151/150) (by rw [htrace]; exact List.mem_cons_self _ _)
  norm_num at h2

/-- C4: if the cancellation flag is observed false at check `c` (and,
being a one-way false transition, stays false), the whole trace contains
at most `c` progress events — so at most one progress event can follow
the moment `stop` was called — and the trace is a block of progress
events followed by the single completion event, hence no progress event
occurs after completion. -/
theorem C4_cancel_bounded (L : ℚ) (clock : ℕ → ℚ) (r : ℕ → Bool)
    (Hmono : Monotone clock)
    (Hsleep : ∀ n, clock (2*n+1) + 1/2 ≤ clock (2*n+2))
    (fuel : ℕ) (Hf1 : 1 ≤ fuel) (Hfuel : 2 * L * 60 ≤ (fuel : ℚ) - 1)
    (Hpersist : ∀ m n : ℕ, m ≤ n → r m = false → r n = false)
    (c : ℕ) (Hc : r c = false) :
    (timeCounter L clock r fuel).countP WorkerEvent.isProgress ≤ c ∧
    ∃ vs : List ℚ,
      timeCounter L clock r fuel =
        vs.map WorkerEvent.timeProgress ++ [WorkerEvent.finished] := by
  constructor
  · have hcount := timeCounterAux_countP L clock r c Hpersist Hc fuel 0
    simpa using hcount
  · obtain ⟨k, hk, -⟩ :=
      timeCounterAux_shape L clock r Hmono Hsleep fuel 0 Hf1 (by push_cast; linarith)
    refine ⟨(List.range k).map (fun j => (clock (2*(0+j)+2) - clock 0) / 60), ?_⟩
    rw [timeCounter, hk, List.map_map]
    rfl

/-- C4 witness: flag observed false from check 1 on; the run emits one
last progress event and then completes. -/
theorem C4_cancel_bounded_witness :
    Monotone wClock ∧ (∀ n, wClock (2*n+1) + 1/2 ≤ wClock (2*n+2)) ∧
    (1 ≤ 3) ∧ (2 * (1/60 : ℚ) * 60 ≤ (3 : ℚ) - 1) ∧
    (∀ m n : ℕ, m ≤ n → decide (m < 1) = false → decide (n < 1) = false) ∧
    (decide (1 < 1) = false) ∧
    ((timeCounter (1/60) wClock (fun i => decide (i < 1)) 3).countP
        WorkerEvent.isProgress ≤ 1 ∧
      ∃ vs : List ℚ,
        timeCounter (1/60) wClock (fun i => decide (i < 1)) 3 =
          vs.map WorkerEvent.timeProgress ++ [WorkerEvent.finished]) := by
  have hpersist : ∀ m n : ℕ, m ≤ n → decide (m < 1) = false → decide (n < 1) = false := by
    intro m n hmn hm
    simp only [decide_eq_false_iff_not] at hm ⊢
    omega
  exact ⟨wClock_mono, wClock_sleep, by norm_num, by norm_num, hpersist, by decide,
    C4_cancel_bounded (1/60) wClock (fun i => decide (i < 1)) wClock_mono wClock_sleep 3
      (by norm_num) (by norm_num) hpersist 1 (by decide)⟩

/-- C7: `stop` is idempotent — a second `stop` leaves the Worker state
unchanged, hence any run driven by the resulting state emits the same
trace. -/
theorem C7_stop_idempotent (w : Worker) :
    Worker.stop (Worker.stop w) = Worker.stop w ∧
    ∀ (clock : ℕ → ℚ) (fuel : ℕ),
      timeCounter (Worker.stop (Worker.stop w)).time_limit clock
          (fun _ => (Worker.stop (Worker.stop w)).is_running) fuel =
        timeCounter (Worker.stop w).time_limit clock
          (fun _ => (Worker.stop w).is_running) fuel :=
  ⟨rfl, fun _ _ => rfl⟩

/-- C9: if the cancellation flag is already false at the very first
loop-condition check (stop called before the loop started), the loop body
never runs: no progress event is emitted and the trace is exactly one
finished signal. -/
theorem C9_stop_before_start (L : ℚ) (clock : ℕ → ℚ) (r : ℕ → Bool)
    (fuel : ℕ) (Hf1 : 1 ≤ fuel) (H0 : r 0 = false) :
    timeCounter L clock r fuel = [WorkerEvent.finished] := by
  obtain ⟨n, rfl⟩ : ∃ n, fuel = n + 1 := ⟨fuel - 1, by omega⟩
  simp only [timeCounter, timeCounterAux]
  rw [if_neg]
  rintro ⟨-, habs⟩
  rw [H0] at habs
  simp at habs

/-- C9 witness: a Worker built with limit 5 and stopped before its loop
started emits exactly the finished signal. -/
theorem C9_stop_before_start_witness :
    (1 ≤ 1) ∧ ((Worker.stop (Worker.init 5)).is_running = false) ∧
    timeCounter (Worker.init 5).time_limit wClock
      (fun _ => (Worker.stop (Worker.init 5)).is_running) 1 = [WorkerEvent.finished] :=
  ⟨by norm_num, rfl,
    C9_stop_before_start (Worker.init 5).time_limit wClock
      (fun _ => (Worker.stop (Worker.init 5)).is_running) 1 (by norm_num) rfl⟩

/-- Python numbers as stored by the progressbar: int or float (floats
are idealised as exact rationals). -/
inductive PyNum where
  | int (z : ℤ)
  | float (q : ℚ)
deriving DecidableEq, Repr

/-- Numeric value of a Python number. -/
def PyNum.toRat : PyNum → ℚ
  | int z => z
  | float q => q

/-- Modelled from the spec: `constants.py` is not among the sources; the
class docstring of QRoundProgressBar states PositionTop is the top
position in degrees (90 degrees). -/
def POSITION_TOP : ℤ := 90

/-- Modelled from the spec: the sweep is fraction times 360 degrees
(full circle). -/
def FULL_ANGLE : ℤ := 360

/-- Modelled from the spec: Qt arc angles are given in sixteenths of a
degree, so degree values are scaled by 16. -/
def PYQT_ANGLE_PRECISION : ℤ := 16

/-- Python int() applied to a float: truncation toward zero. -/
def pyInt (q : ℚ) : ℤ := if 0 ≤ q then ⌊q⌋ else ⌈q⌉

/-- Truncation toward zero is within one of its argument. -/
theorem pyInt_abs_lt (q : ℚ) : |((pyInt q : ℚ)) - q| < 1 := by
  rw [abs_lt]
  unfold pyInt
  by_cases hq : 0 ≤ q
  · rw [if_pos hq]
    constructor
    · have := Int.sub_one_lt_floor q
      linarith
    · have := Int.floor_le q
      linarith
  · rw [if_neg hq]
    constructor
    · have := Int.le_ceil q
      linarith
    · have := Int.ceil_lt_add_one q
      linarith

/-- The pen colors used by drawProgressBar (Qt.green for the ring,
Qt.red for the arc; black stands for any prior pen). -/
inductive PenColor where
  | green
  | red
  | black
deriving DecidableEq, Repr

inductive PenStyle where
  | solidLine
deriving DecidableEq, Repr

inductive PenCap where
  | flatCap
deriving DecidableEq, Repr

/-- A QPen: color, width, line style, cap style. -/
structure QPen where
  color : PenColor
  width : ℤ
  style : PenStyle
  cap : PenCap
deriving DecidableEq, Repr

/-- Painter drawing commands, recorded with the pen in effect when they
were issued (the geometry of the target rectangle is outside the
modelled state). -/
inductive DrawCommand where
  | drawEllipse (pen : QPen)
  | drawArc (pen : QPen) (startAngle endAngle : ℤ)
deriving DecidableEq, Repr

/-- A QPainter: its current pen and the log of issued commands. -/
structure QPainter where
  pen : QPen
  commands : List DrawCommand
deriving DecidableEq, Repr

def QPainter.setPen (p : QPainter) (pen : QPen) : QPainter :=
  { p with pen := pen }

def QPainter.drawEllipse (p : QPainter) : QPainter :=
  { p with commands := p.commands ++ [DrawCommand.drawEllipse p.pen] }

def QPainter.drawArc (p : QPainter) (startAngle endAngle : ℤ) : QPainter :=
  { p with commands := p.commands ++ [DrawCommand.drawArc p.pen startAngle endAngle] }

/-- progressbar.DrawingPainter as a with-block: save the current pen,
set the new pen, run the body, and restore the saved pen on exit. -/
def DrawingPainter (painter : QPainter) (pen : QPen) (body : QPainter → QPainter) : QPainter :=
  let old_pen := painter.pen
  (body (painter.setPen pen)).setPen old_pen

/-- Numeric state of progressbar.QRoundProgressBar plus a counter of
update() calls (each update schedules one repaint); font, margins and
widget geometry are outside the modelled state. -/
structure QRoundProgressBar where
  start_value : PyNum
  end_value : PyNum
  value : PyNum
  pen_width : ℤ
  updates : ℕ
deriving DecidableEq, Repr

/-- QRoundProgressBar.set_range: store both bounds (unvalidated), then
call update(). -/
def QRoundProgressBar.set_range (st : QRoundProgressBar) (s e : PyNum) : QRoundProgressBar :=
  { st with start_value := s, end_value := e, updates := st.updates + 1 }

/-- The value property setter: store the value (unclamped), then call
update(). -/
def QRoundProgressBar.set_value (st : QRoundProgressBar) (v : PyNum) : QRoundProgressBar :=
  { st with value := v, updates := st.updates + 1 }

/-- The start_value property setter: store the bound; it does not call
update(). -/
def QRoundProgressBar.set_start_value (st : QRoundProgressBar) (v : PyNum) : QRoundProgressBar :=
  { st with start_value := v }

/-- The end_value property setter: store the bound; it does not call
update(). -/
def QRoundProgressBar.set_end_value (st : QRoundProgressBar) (v : PyNum) : QRoundProgressBar :=
  { st with end_value := v }

/-- The pen_width property setter: store the width; it does not call
update(). -/
def QRoundProgressBar.set_pen_width (st : QRoundProgressBar) (w : ℤ) : QRoundProgressBar :=
  { st with pen_width := w }

/-- QRoundProgressBar.drawProgressBar: draw the background ring with a
green pen of width pen_width + 6, then the foreground arc with a red pen
of width pen_width, from startAngle = PositionTop * 16 with angle delta
endAngle = -int(fraction * FULL_ANGLE * PYQT_ANGLE_PRECISION).  When
end_value equals start_value the fraction divides by zero and Python
raises ZeroDivisionError: the embedding returns none at that point. -/
def QRoundProgressBar.drawProgressBar (st : QRoundProgressBar) (painter : QPainter) :
    Option QPainter :=
  let p1 := DrawingPainter painter
    ⟨PenColor.green, st.pen_width + 6, PenStyle.solidLine, PenCap.flatCap⟩
    (fun p => p.drawEllipse)
  if st.end_value.toRat - st.start_value.toRat = 0 then
    none
  else
    let startAngle : ℤ := POSITION_TOP * PYQT_ANGLE_PRECISION
    let endAngle : ℤ :=
      -pyInt (((st.value.toRat - st.start_value.toRat) /
          (st.end_value.toRat - st.start_value.toRat)) *
        (FULL_ANGLE : ℚ) * (PYQT_ANGLE_PRECISION : ℚ))
    some (DrawingPainter p1
      ⟨PenColor.red, st.pen_width, PenStyle.solidLine, PenCap.flatCap⟩
      (fun p => p.drawArc startAngle endAngle))

/-- The sweep the spec prescribes, in sixteenths of a degree: fraction
times 360 degrees, with fraction = (current - start) / (end - start). -/
def specSweepSixteenths (s e c : ℚ) : ℚ := (c - s) / (e - s) * 360 * 16

/-- A painter in its initial state: some prior pen, empty command log. -/
def painter0 : QPainter :=
  ⟨⟨PenColor.black, 1, PenStyle.solidLine, PenCap.flatCap⟩, []⟩

/-- C2: the guard the claim requires is absent.  set_range(5, 5) is
accepted without validation, leaving end_value equal to start_value, and
rendering then reaches the division by (end - start) = 0: Python raises
ZeroDivisionError (embedded as none).  Rendering after the degenerate
range crashes instead of being rejected or substituted. -/
theorem C2_degenerate_range :
    ((QRoundProgressBar.mk (PyNum.int 0) (PyNum.int 100) (PyNum.int 0) 10 0).set_range
        (PyNum.int 5) (PyNum.int 5)).end_value =
      ((QRoundProgressBar.mk (PyNum.int 0) (PyNum.int 100) (PyNum.int 0) 10 0).set_range
        (PyNum.int 5) (PyNum.int 5)).start_value ∧
    ((QRoundProgressBar.mk (PyNum.int 0) (PyNum.int 100) (PyNum.int 0) 10 0).set_range
        (PyNum.int 5) (PyNum.int 5)).drawProgressBar painter0 = none := by
  constructor
  · rfl
  · simp only [QRoundProgressBar.set_range, QRoundProgressBar.drawProgressBar]
    rw [if_pos]
    simp [PyNum.toRat]

/-- Unfolded form of a successful drawProgressBar call: the pen is
restored to the prior pen and the command log gains the background ring
and the foreground arc, whose delta is minus the truncated spec sweep. -/
theorem drawProgressBar_eq (st : QRoundProgressBar) (painter : QPainter)
    (hne : ¬ (st.end_value.toRat - st.start_value.toRat = 0)) :
    st.drawProgressBar painter =
      some ⟨painter.pen,
        painter.commands ++
          [DrawCommand.drawEllipse
             ⟨PenColor.green, st.pen_width + 6, PenStyle.solidLine, PenCap.flatCap⟩,
           DrawCommand.drawArc
             ⟨PenColor.red, st.pen_width, PenStyle.solidLine, PenCap.flatCap⟩
             (POSITION_TOP * PYQT_ANGLE_PRECISION)
             (-pyInt (specSweepSixteenths st.start_value.toRat st.end_value.toRat
               st.value.toRat))]⟩ := by
  have hangle : (st.value.toRat - st.start_value.toRat) /
        (st.end_value.toRat - st.start_value.toRat) * ((FULL_ANGLE : ℤ) : ℚ) *
        ((PYQT_ANGLE_PRECISION : ℤ) : ℚ) =
      specSweepSixteenths st.start_value.toRat st.end_value.toRat st.value.toRat := by
    simp [specSweepSixteenths, FULL_ANGLE, PYQT_ANGLE_PRECISION]
  simp only [QRoundProgressBar.drawProgressBar, DrawingPainter, QPainter.setPen,
    QPainter.drawEllipse, QPainter.drawArc, if_neg hne, hangle]
  simp [List.append_assoc]

/-- C5: whenever end > start, drawProgressBar succeeds, drawing the
background ring and then the foreground arc; the arc starts at
PositionTop * 16 sixteenths of a degree (the 12-o'clock position in the
Qt convention) and its angle delta is minus the truncation of the spec
sweep (fraction times 360 degrees, in sixteenths); the truncation is
within one sixteenth of a degree of the exact sweep. -/
theorem C5_arc (s e c : PyNum) (pw : ℤ) (u : ℕ) (painter : QPainter)
    (h : s.toRat < e.toRat) :
    ∃ p' : QPainter,
      (QRoundProgressBar.mk s e c pw u).drawProgressBar painter = some p' ∧
      p'.commands = painter.commands ++
        [DrawCommand.drawEllipse ⟨PenColor.green, pw + 6, PenStyle.solidLine, PenCap.flatCap⟩,
         DrawCommand.drawArc ⟨PenColor.red, pw, PenStyle.solidLine, PenCap.flatCap⟩
           (POSITION_TOP * PYQT_ANGLE_PRECISION)
           (-pyInt (specSweepSixteenths s.toRat e.toRat c.toRat))] ∧
      |((pyInt (specSweepSixteenths s.toRat e.toRat c.toRat) : ℚ)) -
          specSweepSixteenths s.toRat e.toRat c.toRat| < 1 := by
  have hne : ¬ ((QRoundProgressBar.mk s e c pw u).end_value.toRat -
      (QRoundProgressBar.mk s e c pw u).start_value.toRat = 0) :=
    sub_ne_zero.mpr (Ne.symm (ne_of_lt h))
  exact ⟨_, drawProgressBar_eq _ painter hne, rfl, pyInt_abs_lt _⟩

/-- C5 witness: start 0, end 100, current 25 over a fresh painter. -/
theorem C5_arc_witness :
    ((PyNum.int 0).toRat < (PyNum.int 100).toRat) ∧
    ∃ p' : QPainter,
      (QRoundProgressBar.mk (PyNum.int 0) (PyNum.int 100) (PyNum.int 25) 10 0).drawProgressBar
          painter0 = some p' ∧
      p'.commands = painter0.commands ++
        [DrawCommand.drawEllipse ⟨PenColor.green, 10 + 6, PenStyle.solidLine, PenCap.flatCap⟩,
         DrawCommand.drawArc ⟨PenColor.red, 10, PenStyle.solidLine, PenCap.flatCap⟩
           (POSITION_TOP * PYQT_ANGLE_PRECISION)
           (-pyInt (specSweepSixteenths (PyNum.int 0).toRat (PyNum.int 100).toRat
             (PyNum.int 25).toRat))] ∧
      |((pyInt (specSweepSixteenths (PyNum.int 0).toRat (PyNum.int 100).toRat
            (PyNum.int 25).toRat) : ℚ)) -
          specSweepSixteenths (PyNum.int 0).toRat (PyNum.int 100).toRat
            (PyNum.int 25).toRat| < 1 :=
  ⟨by norm_num [PyNum.toRat],
    C5_arc (PyNum.int 0) (PyNum.int 100) (PyNum.int 25) 10 0 painter0
      (by norm_num [PyNum.toRat])⟩

/-- Instance check: at start 0, end 100, current 25 the truncated sweep
is 1440 sixteenths (90 degrees, drawn clockwise as -1440), and the start
angle constant is 1440 sixteenths (12 o'clock). -/
theorem arc_quarter_turn :
    pyInt (specSweepSixteenths 0 100 25) = 1440 ∧
    POSITION_TOP * PYQT_ANGLE_PRECISION = 1440 := by
  constructor
  · norm_num [specSweepSixteenths, pyInt]
  · norm_num [POSITION_TOP, PYQT_ANGLE_PRECISION]

/-- Instance check: after set_range(0, 50) then setting value 50, the
drawn arc is a full circle: delta -5760 sixteenths (360 degrees
clockwise). -/
theorem arc_full_sweep_after_set_range :
    (((QRoundProgressBar.mk (PyNum.int 0) (PyNum.int 100) (PyNum.int 0) 10 0).set_range
        (PyNum.int 0) (PyNum.int 50)).set_value (PyNum.int 50)).drawProgressBar painter0 =
      some ⟨painter0.pen,
        [DrawCommand.drawEllipse ⟨PenColor.green, 16, PenStyle.solidLine, PenCap.flatCap⟩,
         DrawCommand.drawArc ⟨PenColor.red, 10, PenStyle.solidLine, PenCap.flatCap⟩
           1440 (-5760)]⟩ := by
  rw [drawProgressBar_eq _ painter0
    (by norm_num [QRoundProgressBar.set_range, QRoundProgressBar.set_value, PyNum.toRat])]
  norm_num [QRoundProgressBar.set_range, QRoundProgressBar.set_value, PyNum.toRat,
    specSweepSixteenths, pyInt, POSITION_TOP, PYQT_ANGLE_PRECISION, painter0]

/-- C8 counterexample: the start_value property setter stores the bound
but schedules no repaint — the update counter is unchanged, not
incremented — refuting the claim that every mutator schedules a visual
repaint. -/
theorem C8_counterexample :
    ((QRoundProgressBar.mk (PyNum.int 0) (PyNum.int 100) (PyNum.int 0) 10 0).set_start_value
        (PyNum.int 7)).updates =
      (QRoundProgressBar.mk (PyNum.int 0) (PyNum.int 100) (PyNum.int 0) 10 0).updates ∧
    ¬ (((QRoundProgressBar.mk (PyNum.int 0) (PyNum.int 100) (PyNum.int 0) 10 0).set_start_value
        (PyNum.int 7)).updates =
      (QRoundProgressBar.mk (PyNum.int 0) (PyNum.int 100) (PyNum.int 0) 10 0).updates + 1) :=
  ⟨rfl, by simp [QRoundProgressBar.set_start_value]⟩

/-- C8 (amended): set_range and the value setter store exactly the
fields they set (the value unclamped) and schedule exactly one repaint;
the individual start_value / end_value and pen_width setters store
exactly their field and schedule no repaint. -/
theorem C8_mutators (st : QRoundProgressBar) (s e v : PyNum) (w : ℤ) :
    ((st.set_range s e).start_value = s ∧ (st.set_range s e).end_value = e ∧
      (st.set_range s e).value = st.value ∧ (st.set_range s e).pen_width = st.pen_width ∧
      (st.set_range s e).updates = st.updates + 1) ∧
    ((st.set_value v).value = v ∧ (st.set_value v).start_value = st.start_value ∧
      (st.set_value v).end_value = st.end_value ∧ (st.set_value v).pen_width = st.pen_width ∧
      (st.set_value v).updates = st.updates + 1) ∧
    ((st.set_start_value s).start_value = s ∧ (st.set_start_value s).end_value = st.end_value ∧
      (st.set_start_value s).value = st.value ∧
      (st.set_start_value s).pen_width = st.pen_width ∧
      (st.set_start_value s).updates = st.updates) ∧
    ((st.set_end_value e).end_value = e ∧ (st.set_end_value e).start_value = st.start_value ∧
      (st.set_end_value e).value = st.value ∧ (st.set_end_value e).pen_width = st.pen_width ∧
      (st.set_end_value e).updates = st.updates) ∧
    ((st.set_pen_width w).pen_width = w ∧ (st.set_pen_width w).start_value = st.start_value ∧
      (st.set_pen_width w).end_value = st.end_value ∧ (st.set_pen_width w).value = st.value ∧
      (st.set_pen_width w).updates = st.updates) :=
  ⟨⟨rfl, rfl, rfl, rfl, rfl⟩, ⟨rfl, rfl, rfl, rfl, rfl⟩, ⟨rfl, rfl, rfl, rfl, rfl⟩,
    ⟨rfl, rfl, rfl, rfl, rfl⟩, ⟨rfl, rfl, rfl, rfl, rfl⟩⟩

/-- C10: DrawingPainter restores the saved pen on exit whatever the body
did, so each rendering phase of drawProgressBar leaves the painter pen
exactly as it was before the phase; in particular a successful
drawProgressBar returns a painter holding the pen it started with. -/
theorem C10_pen_restored :
    (∀ (p : QPainter) (pen : QPen) (body : QPainter → QPainter),
      (DrawingPainter p pen body).pen = p.pen) ∧
    (∀ (st : QRoundProgressBar) (painter p' : QPainter),
      st.drawProgressBar painter = some p' → p'.pen = painter.pen) := by
  refine ⟨fun p pen body => rfl, fun st painter p' h => ?_⟩
  by_cases hd : st.end_value.toRat - st.start_value.toRat = 0
  · have hnone : st.drawProgressBar painter = none := by
      simp only [QRoundProgressBar.drawProgressBar, if_pos hd]
    rw [hnone] at h
    exact absurd h (by simp)
  · rw [drawProgressBar_eq st painter hd] at h
    have hinj := Option.some.inj h
    rw [← hinj]

/-- C10 witness: rendering at start 0, end 100, current 25 over painter0
succeeds and returns a painter whose pen equals painter0's pen. -/
theorem C10_pen_restored_witness :
    ((QRoundProgressBar.mk (PyNum.int 0) (PyNum.int 100) (PyNum.int 25) 10 0).drawProgressBar
        painter0 =
      some (QPainter.mk painter0.pen
        [DrawCommand.drawEllipse ⟨PenColor.green, 16, PenStyle.solidLine, PenCap.flatCap⟩,
         DrawCommand.drawArc ⟨PenColor.red, 10, PenStyle.solidLine, PenCap.flatCap⟩
           1440 (-1440)])) ∧
    (QPainter.mk painter0.pen
        [DrawCommand.drawEllipse ⟨PenColor.green, 16, PenStyle.solidLine, PenCap.flatCap⟩,
         DrawCommand.drawArc ⟨PenColor.red, 10, PenStyle.solidLine, PenCap.flatCap⟩
           1440 (-1440)]).pen = painter0.pen := by
  have heval : (QRoundProgressBar.mk (PyNum.int 0) (PyNum.int 100) (PyNum.int 25) 10 0).drawProgressBar
      painter0 =
      some (QPainter.mk painter0.pen
        [DrawCommand.drawEllipse ⟨PenColor.green, 16, PenStyle.solidLine, PenCap.flatCap⟩,
         DrawCommand.drawArc ⟨PenColor.red, 10, PenStyle.solidLine, PenCap.flatCap⟩
           1440 (-1440)]) := by
    rw [drawProgressBar_eq _ painter0 (by norm_num [PyNum.toRat])]
    norm_num [PyNum.toRat, specSweepSixteenths, pyInt, POSITION_TOP,
      PYQT_ANGLE_PRECISION, painter0]
  exact ⟨heval, C10_pen_restored.2 _ painter0 _ heval⟩

/-- Characters string.Template treats as part of a placeholder name. -/
def isIdentChar (ch : Char) : Bool := ch.isAlphanum || ch = '_'

/-- One-pass substitution of Python string.Template: a dollar sign
followed by a maximal identifier run is replaced by the mapping entry
for that name (a missing key raises KeyError, embedded as none); other
characters are copied verbatim and replacement text is not rescanned.
The fuel argument makes the recursion structural; every step consumes at
least one character, so length + 1 fuel (supplied by templateSub) never
runs out. -/
def templateSubAux (m : List (String × String)) : ℕ → List Char → Option (List Char)
  | 0, _ => none
  | _ + 1, [] => some []
  | fuel + 1, '$' :: rest =>
    match m.lookup (String.mk (rest.takeWhile isIdentChar)) with
    | none => none
    | some v => (templateSubAux m fuel (rest.dropWhile isIdentChar)).map
        (fun t => v.toList ++ t)
  | fuel + 1, c :: rest => (templateSubAux m fuel rest).map (fun t => c :: t)

/-- Template.substitute on a character list. -/
def templateSub (m : List (String × String)) (l : List Char) : Option (List Char) :=
  templateSubAux m (l.length + 1) l

/-- Round half to even of a rational to an integer (the tie-breaking
Python round uses). -/
def roundHalfEven (q : ℚ) : ℤ :=
  let f := ⌊q⌋
  if q - f < 1/2 then f
  else if 1/2 < q - f then f + 1
  else if f % 2 = 0 then f else f + 1

/-- Python round(x, 2): an int is returned unchanged; a float is rounded
half-to-even at the second decimal (floats idealised as exact
rationals). -/
def pyRound2 : PyNum → PyNum
  | .int z => .int z
  | .float q => .float ((roundHalfEven (q * 100) : ℚ) / 100)

/-- Python str of a float that is an exact multiple of 1/100 (the output
of round(x, 2)): sign, integer part, a dot, then the shortest fraction —
at least one digit, a trailing zero dropped from a two-digit fraction,
a leading zero kept. -/
def pyFloatStr (q : ℚ) : String :=
  let k : ℤ := ⌊q * 100⌋
  let sign := if k < 0 then "-" else ""
  let n := k.natAbs
  let intPart := n / 100
  let frac := n % 100
  if frac = 0 then sign ++ toString intPart ++ ".0"
  else if frac % 10 = 0 then sign ++ toString intPart ++ "." ++ toString (frac / 10)
  else if frac < 10 then sign ++ toString intPart ++ ".0" ++ toString frac
  else sign ++ toString intPart ++ "." ++ toString frac

/-- Python str on the numbers drawCenterText renders. -/
def pyStr : PyNum → String
  | .int z => toString z
  | .float q => pyFloatStr q

/-- QRoundProgressBar.drawCenterText: substitute str(round(value, 2))
and str(round(end_value, 2)) into the template "$value / $end_value". -/
def QRoundProgressBar.drawCenterText (st : QRoundProgressBar) : Option String :=
  (templateSub
      [("value", pyStr (pyRound2 st.value)), ("end_value", pyStr (pyRound2 st.end_value))]
      "$value / $end_value".toList).map String.mk

/-- Substituting any two strings into the concrete template used by
drawCenterText. -/
theorem tmpl_value_end (A B : String) :
    templateSub [("value", A), ("end_value", B)] "$value / $end_value".toList =
      some (A.toList ++ (' ' :: '/' :: ' ' :: (B.toList ++ []))) := rfl

/-- C6: for every state the centred label renders as
str(round(value, 2)) ++ " / " ++ str(round(end_value, 2)); in particular
at value 33.333 and end value 100 it renders as "33.33 / 100". -/
theorem C6_label :
    (∀ st : QRoundProgressBar,
      st.drawCenterText =
        some (pyStr (pyRound2 st.value) ++ " / " ++ pyStr (pyRound2 st.end_value))) ∧
    (QRoundProgressBar.mk (PyNum.int 0) (PyNum.int 100) (PyNum.float (33333/1000)) 10
        0).drawCenterText = some "33.33 / 100" := by
  have hgen : ∀ st : QRoundProgressBar,
      st.drawCenterText =
        some (pyStr (pyRound2 st.value) ++ " / " ++ pyStr (pyRound2 st.end_value)) := by
    intro st
    have htm := tmpl_value_end (pyStr (pyRound2 st.value)) (pyStr (pyRound2 st.end_value))
    simp only [QRoundProgressBar.drawCenterText]
    rw [htm]
    simp only [Option.map_some']
    congr 1
    apply String.ext
    simp [String.toList]
  refine ⟨hgen, ?_⟩
  rw [hgen]
  have h1 : pyStr (pyRound2 (PyNum.float (33333/1000))) = "33.33" := by
    norm_num [pyStr, pyFloatStr, pyRound2, roundHalfEven]
    rfl
  show some (pyStr (pyRound2 (PyNum.float (33333/1000))) ++ " / " ++
      pyStr (pyRound2 (PyNum.int 100))) = some "33.33 / 100"
  rw [h1]
  rfl
